import Mathlib

/-!
Verification of the crypto core of `hubcli` (packet codec, SP 800-108 KDF,
AES-CMAC truncated authentication, AES-CTR stream decryption and the
windowed time-counter search of `internal/crypto`).

Bytes are modelled as `Nat` values in `[0, 255]`; Go byte slices become
`List Nat`.  Go's `uint32` arithmetic is modelled with explicit `% 2^32`.
Fallible Go functions returning `(T, error)` become `Except GoErr T`.
The external primitives used by the source (`crypto/aes`, `aead/cmac`,
`crypto/subtle`) are embedded by their standard definitions (FIPS 197,
RFC 4493, constant-time compare); the claims proved below depend only on
their determinism and output lengths, never on the cipher internals.
-/

namespace Hubcli

/-- Go `uint32` truncation: value modulo `2^32`. -/
def u32 (n : Nat) : Nat := n % 4294967296

/-- `binary.BigEndian.PutUint32`: four big-endian bytes of a `uint32` value. -/
def be32 (n : Nat) : List Nat :=
  [(n >>> 24) % 256, (n >>> 16) % 256, (n >>> 8) % 256, n % 256]

/-! ### AES block cipher (Go `crypto/aes`, FIPS 197)

The state is a 16-byte list, byte `i` holding row `i % 4`, column `i / 4`. -/

/-- The AES S-box (FIPS 197, Fig. 7). -/
def sbox : List Nat :=
  [0x63, 0x7c, 0x77, 0x7b, 0xf2, 0x6b, 0x6f, 0xc5, 0x30, 0x01, 0x67, 0x2b, 0xfe, 0xd7, 0xab, 0x76,
   0xca, 0x82, 0xc9, 0x7d, 0xfa, 0x59, 0x47, 0xf0, 0xad, 0xd4, 0xa2, 0xaf, 0x9c, 0xa4, 0x72, 0xc0,
   0xb7, 0xfd, 0x93, 0x26, 0x36, 0x3f, 0xf7, 0xcc, 0x34, 0xa5, 0xe5, 0xf1, 0x71, 0xd8, 0x31, 0x15,
   0x04, 0xc7, 0x23, 0xc3, 0x18, 0x96, 0x05, 0x9a, 0x07, 0x12, 0x80, 0xe2, 0xeb, 0x27, 0xb2, 0x75,
   0x09, 0x83, 0x2c, 0x1a, 0x1b, 0x6e, 0x5a, 0xa0, 0x52, 0x3b, 0xd6, 0xb3, 0x29, 0xe3, 0x2f, 0x84,
   0x53, 0xd1, 0x00, 0xed, 0x20, 0xfc, 0xb1, 0x5b, 0x6a, 0xcb, 0xbe, 0x39, 0x4a, 0x4c, 0x58, 0xcf,
   0xd0, 0xef, 0xaa, 0xfb, 0x43, 0x4d, 0x33, 0x85, 0x45, 0xf9, 0x02, 0x7f, 0x50, 0x3c, 0x9f, 0xa8,
   0x51, 0xa3, 0x40, 0x8f, 0x92, 0x9d, 0x38, 0xf5, 0xbc, 0xb6, 0xda, 0x21, 0x10, 0xff, 0xf3, 0xd2,
   0xcd, 0x0c, 0x13, 0xec, 0x5f, 0x97, 0x44, 0x17, 0xc4, 0xa7, 0x7e, 0x3d, 0x64, 0x5d, 0x19, 0x73,
   0x60, 0x81, 0x4f, 0xdc, 0x22, 0x2a, 0x90, 0x88, 0x46, 0xee, 0xb8, 0x14, 0xde, 0x5e, 0x0b, 0xdb,
   0xe0, 0x32, 0x3a, 0x0a, 0x49, 0x06, 0x24, 0x5c, 0xc2, 0xd3, 0xac, 0x62, 0x91, 0x95, 0xe4, 0x79,
   0xe7, 0xc8, 0x37, 0x6d, 0x8d, 0xd5, 0x4e, 0xa9, 0x6c, 0x56, 0xf4, 0xea, 0x65, 0x7a, 0xae, 0x08,
   0xba, 0x78, 0x25, 0x2e, 0x1c, 0xa6, 0xb4, 0xc6, 0xe8, 0xdd, 0x74, 0x1f, 0x4b, 0xbd, 0x8b, 0x8a,
   0x70, 0x3e, 0xb5, 0x66, 0x48, 0x03, 0xf6, 0x0e, 0x61, 0x35, 0x57, 0xb9, 0x86, 0xc1, 0x1d, 0x9e,
   0xe1, 0xf8, 0x98, 0x11, 0x69, 0xd9, 0x8e, 0x94, 0x9b, 0x1e, 0x87, 0xe9, 0xce, 0x55, 0x28, 0xdf,
   0x8c, 0xa1, 0x89, 0x0d, 0xbf, 0xe6, 0x42, 0x68, 0x41, 0x99, 0x2d, 0x0f, 0xb0, 0x54, 0xbb, 0x16]

/-- Round constants for the key schedule (FIPS 197 §5.2). -/
def rcon : List Nat := [0x01, 0x02, 0x04, 0x08, 0x10, 0x20, 0x40, 0x80, 0x1b, 0x36]

/-- S-box substitution of one byte. -/
def subByte (b : Nat) : Nat := sbox.getD b 0

/-- Multiplication by `x` in GF(2^8) with the AES polynomial `0x11b`. -/
def xtime (b : Nat) : Nat :=
  if b &&& 0x80 == 0 then (b <<< 1) &&& 0xff else ((b <<< 1) ^^^ 0x1b) &&& 0xff

/-- Apply the S-box to each byte of a word. -/
def subWord (w : List Nat) : List Nat := w.map subByte

/-- Rotate a 4-byte word left by one byte. -/
def rotWord (w : List Nat) : List Nat :=
  match w with
  | [] => []
  | a :: rest => rest ++ [a]

/-- Bytewise XOR of two words. -/
def xorBytes (a b : List Nat) : List Nat := List.zipWith (· ^^^ ·) a b

/-- AES key expansion (FIPS 197 §5.2), producing the `4*(Nr+1)` words of the
round keys for a 16- or 32-byte key (`Nk = 4` or `8`, `Nr = Nk + 6`). -/
def keyWords (key : List Nat) : List (List Nat) :=
  let nk := key.length / 4
  let nr := nk + 6
  let initWords := (List.range nk).map
    (fun i => (List.range 4).map (fun j => key.getD (4 * i + j) 0))
  (List.range (4 * (nr + 1) - nk)).foldl
    (fun w _ =>
      let i := w.length
      let temp := w.getD (i - 1) []
      let temp :=
        if i % nk == 0 then
          xorBytes (subWord (rotWord temp)) [rcon.getD (i / nk - 1) 0, 0, 0, 0]
        else if 6 < nk ∧ i % nk == 4 then
          subWord temp
        else temp
      w ++ [xorBytes (w.getD (i - nk) []) temp])
    initWords

/-- The 16-byte round key number `r`. -/
def roundKey (w : List (List Nat)) (r : Nat) : List Nat :=
  ((List.range 4).map (fun c => w.getD (4 * r + c) [])).flatten

/-- SubBytes transformation. -/
def subBytes (st : List Nat) : List Nat := st.map subByte

/-- ShiftRows: row `r` (bytes with index `≡ r (mod 4)`) rotates left by `r`. -/
def shiftRows (st : List Nat) : List Nat :=
  (List.range 16).map (fun i => st.getD (i % 4 + 4 * ((i / 4 + i % 4) % 4)) 0)

/-- MixColumns on a single 4-byte column. -/
def mixColumn (a : List Nat) : List Nat :=
  let a0 := a.getD 0 0
  let a1 := a.getD 1 0
  let a2 := a.getD 2 0
  let a3 := a.getD 3 0
  [xtime a0 ^^^ (xtime a1 ^^^ a1) ^^^ a2 ^^^ a3,
   a0 ^^^ xtime a1 ^^^ (xtime a2 ^^^ a2) ^^^ a3,
   a0 ^^^ a1 ^^^ xtime a2 ^^^ (xtime a3 ^^^ a3),
   (xtime a0 ^^^ a0) ^^^ a1 ^^^ a2 ^^^ xtime a3]

/-- MixColumns transformation. -/
def mixColumns (st : List Nat) : List Nat :=
  ((List.range 4).map
    (fun c => mixColumn ((List.range 4).map (fun r => st.getD (4 * c + r) 0)))).flatten

/-- AddRoundKey transformation. -/
def addRoundKey (st rk : List Nat) : List Nat := xorBytes st rk

/-- The AES round function chain (initial AddRoundKey, `Nr - 1` full rounds,
final round without MixColumns). -/
def aesRounds (key block : List Nat) : List Nat :=
  let nr := key.length / 4 + 6
  let w := keyWords key
  let st0 := addRoundKey block (roundKey w 0)
  let stn := (List.range (nr - 1)).foldl
    (fun st r => addRoundKey (mixColumns (shiftRows (subBytes st))) (roundKey w (r + 1)))
    st0
  addRoundKey (shiftRows (subBytes stn)) (roundKey w nr)

/-- AES block encryption: the cipher writes its final state into a fresh
16-byte output block. -/
def aesEncryptBlock (key block : List Nat) : List Nat :=
  (List.range 16).map (fun i => (aesRounds key block).getD i 0)

theorem length_aesEncryptBlock (key block : List Nat) :
    (aesEncryptBlock key block).length = 16 := by
  simp [aesEncryptBlock]

set_option maxRecDepth 1000000 in
/-- Known-vector conformance, FIPS 197 Appendix C.1 (AES-128). -/
theorem aes128_fips197_vector :
    aesEncryptBlock
      [0x00, 0x01, 0x02, 0x03, 0x04, 0x05, 0x06, 0x07,
       0x08, 0x09, 0x0a, 0x0b, 0x0c, 0x0d, 0x0e, 0x0f]
      [0x00, 0x11, 0x22, 0x33, 0x44, 0x55, 0x66, 0x77,
       0x88, 0x99, 0xaa, 0xbb, 0xcc, 0xdd, 0xee, 0xff] =
    [0x69, 0xc4, 0xe0, 0xd8, 0x6a, 0x7b, 0x04, 0x30,
     0xd8, 0xcd, 0xb7, 0x80, 0x70, 0xb4, 0xc5, 0x5a] := by
  decide

set_option maxRecDepth 1000000 in
/-- Known-vector conformance, FIPS 197 Appendix C.3 (AES-256). -/
theorem aes256_fips197_vector :
    aesEncryptBlock
      [0x00, 0x01, 0x02, 0x03, 0x04, 0x05, 0x06, 0x07,
       0x08, 0x09, 0x0a, 0x0b, 0x0c, 0x0d, 0x0e, 0x0f,
       0x10, 0x11, 0x12, 0x13, 0x14, 0x15, 0x16, 0x17,
       0x18, 0x19, 0x1a, 0x1b, 0x1c, 0x1d, 0x1e, 0x1f]
      [0x00, 0x11, 0x22, 0x33, 0x44, 0x55, 0x66, 0x77,
       0x88, 0x99, 0xaa, 0xbb, 0xcc, 0xdd, 0xee, 0xff] =
    [0x8e, 0xa2, 0xb7, 0xca, 0x51, 0x67, 0x45, 0xbf,
     0xea, 0xfc, 0x49, 0x90, 0x4b, 0x49, 0x60, 0x89] := by
  decide

/-! ### AES-CMAC (library `github.com/aead/cmac`, RFC 4493) -/

/-- Big-endian byte list to natural number. -/
def beBytesToNat (l : List Nat) : Nat := l.foldl (fun acc b => acc * 256 + b) 0

/-- Natural number to `len` big-endian bytes. -/
def natToBeBytes (len n : Nat) : List Nat :=
  (List.range len).map (fun i => (n >>> (8 * (len - 1 - i))) % 256)

/-- CMAC subkey doubling: left shift by one bit in GF(2^128), XOR `0x87`
when the top bit overflows. -/
def cmacDbl (l : List Nat) : List Nat :=
  let n := beBytesToNat l
  let shifted := (n <<< 1) % (2 ^ 128)
  natToBeBytes 16 (if n >>> 127 == 1 then shifted ^^^ 0x87 else shifted)

/-- Split a byte list into 16-byte chunks (the last one possibly partial):
chunk `i` is bytes `[16*i, 16*i + 16)`. -/
def chunks16 (l : List Nat) : List (List Nat) :=
  (List.range ((l.length + 15) / 16)).map (fun i => (l.drop (16 * i)).take 16)

/-- RFC 4493 padding of a final partial block: `0x80` then zeros to 16 bytes. -/
def cmacPad (l : List Nat) : List Nat := l ++ [0x80] ++ List.replicate (15 - l.length) 0

/-- The one-shot AES-CMAC over a message (RFC 4493 §2.4): the last block is
XORed with subkey `K1` when the message is a nonzero multiple of the block
size, otherwise padded and XORed with `K2`; the blocks then run through
CBC-MAC under `key`. -/
def cmac (key msg : List Nat) : List Nat :=
  let k1 := cmacDbl (aesEncryptBlock key (List.replicate 16 0))
  let k2 := cmacDbl k1
  let cs := chunks16 msg
  let lastBlock :=
    if msg.length ≠ 0 ∧ msg.length % 16 = 0 then
      xorBytes (cs.getLastD []) k1
    else
      xorBytes (cmacPad (cs.getLastD [])) k2
  (cs.dropLast ++ [lastBlock]).foldl
    (fun x b => aesEncryptBlock key (xorBytes x b))
    (List.replicate 16 0)

theorem length_cmac (key msg : List Nat) : (cmac key msg).length = 16 := by
  unfold cmac
  rw [List.foldl_concat]
  exact length_aesEncryptBlock ..

set_option maxRecDepth 1000000 in
/-- Known-vector conformance, RFC 4493 §4 Example 1 (empty message). -/
theorem cmac_rfc4493_empty_vector :
    cmac [0x2b, 0x7e, 0x15, 0x16, 0x28, 0xae, 0xd2, 0xa6,
          0xab, 0xf7, 0x15, 0x88, 0x09, 0xcf, 0x4f, 0x3c] [] =
    [0xbb, 0x1d, 0x69, 0x29, 0xe9, 0x59, 0x37, 0x28,
     0x7f, 0xa3, 0x7d, 0x12, 0x9b, 0x75, 0x67, 0x46] := by
  decide

set_option maxRecDepth 1000000 in
/-- Known-vector conformance, RFC 4493 §4 Example 2 (16-byte message). -/
theorem cmac_rfc4493_block_vector :
    cmac [0x2b, 0x7e, 0x15, 0x16, 0x28, 0xae, 0xd2, 0xa6,
          0xab, 0xf7, 0x15, 0x88, 0x09, 0xcf, 0x4f, 0x3c]
         [0x6b, 0xc1, 0xbe, 0xe2, 0x2e, 0x40, 0x9f, 0x96,
          0xe9, 0x3d, 0x7e, 0x11, 0x73, 0x93, 0x17, 0x2a] =
    [0x07, 0x0a, 0x16, 0xb4, 0x6b, 0x4d, 0x41, 0x44,
     0xf7, 0x9b, 0xdd, 0x9d, 0xd0, 0x4a, 0x28, 0x7c] := by
  decide

/-! ### `crypto/subtle.ConstantTimeCompare` -/

/-- Go's `subtle.ConstantTimeCompare`: `0` when lengths differ, else it ORs
together the XOR of every byte pair and returns `1` exactly when the
accumulator is zero. -/
def constantTimeCompare (x y : List Nat) : Nat :=
  if x.length ≠ y.length then 0
  else if (List.zipWith (· ^^^ ·) x y).foldl (· ||| ·) 0 = 0 then 1 else 0

/-! ### Errors

Go errors are modelled as an inductive type; `fmt.Errorf("...: %w", err)`
wrapping becomes the `wrapped` constructor tagged with the format-string
site, so `errors.Is`-style identity of the sentinel errors is preserved. -/

/-- The sites at which the source wraps an error with context. -/
inductive WrapSite
  | packetTooShortDetail  -- ParsePacket: "%w: got %d bytes, need at least %d"
  | keyDerivation         -- tryDecrypt: "key derivation failed: %w"
  | authTagComputation    -- tryDecrypt: "auth tag computation failed: %w"
  | nonceDerivation       -- tryDecrypt: "nonce derivation failed: %w"
  | ctrDecryption         -- tryDecrypt: "decryption failed: %w"
  | nonceKeyStage         -- FullNonceDerivation: "failed to derive nonce key: %w"
  | encKeyIntermediateStage -- FullEncryptionKeyDerivation: "failed to derive intermediate key: %w"
  deriving DecidableEq, Repr

/-- The error values produced by the crypto package. -/
inductive GoErr
  | invalidKeySizeMsg (got : Nat)   -- "key must be 16 or 32 bytes, got %d"
  | invalidNonceSizeMsg (got : Nat) -- "nonce must be 12 bytes, got %d"
  | tagLengthMsg (got : Nat)        -- "expected tag must be %d bytes, got %d"
  | errPacketTooShort               -- ErrPacketTooShort
  | errDecryptionFailed             -- ErrDecryptionFailed
  | errInvalidKey                   -- ErrInvalidKey
  | errAuthenticationFail           -- ErrAuthenticationFail
  | wrapped (site : WrapSite) (inner : GoErr)
  deriving DecidableEq, Repr

/-! ### `internal/crypto/cmac.go` -/

/-- `AuthTagSize`. -/
def AuthTagSize : Nat := 4

/-- `ComputeAuthTag`: 4-byte truncation of the full AES-CMAC. -/
def ComputeAuthTag (key data : List Nat) : Except GoErr (List Nat) :=
  if key.length ≠ 16 ∧ key.length ≠ 32 then
    .error (.invalidKeySizeMsg key.length)
  else
    .ok ((cmac key data).take AuthTagSize)

/-- `VerifyAuthTag`: recompute and compare in constant time. -/
def VerifyAuthTag (key data expectedTag : List Nat) : Except GoErr Bool :=
  if expectedTag.length ≠ AuthTagSize then
    .error (.tagLengthMsg expectedTag.length)
  else
    match ComputeAuthTag key data with
    | .error e => .error e
    | .ok computedTag => .ok (constantTimeCompare computedTag expectedTag = 1)

/-- `ComputeFullCMAC`: the untruncated 16-byte AES-CMAC. -/
def ComputeFullCMAC (key data : List Nat) : Except GoErr (List Nat) :=
  if key.length ≠ 16 ∧ key.length ≠ 32 then
    .error (.invalidKeySizeMsg key.length)
  else
    .ok (cmac key data)

/-! ### `internal/crypto/kdf.go` -/

/-- `SP800108CounterKDF`: NIST SP 800-108 counter-mode KDF with AES-CMAC as
the PRF.  `K(i) = PRF(key, [i]_2 || label || 0x00 || context || [L]_2)` for a
32-bit big-endian counter `i = 1..numBlocks`; the concatenation is truncated
to `outputLen` bytes. -/
def SP800108CounterKDF (key label context : List Nat) (outputLen : Nat) :
    Except GoErr (List Nat) :=
  if key.length ≠ 16 ∧ key.length ≠ 32 then
    .error (.invalidKeySizeMsg key.length)
  else
    let blockSize := 16
    let numBlocks := (outputLen + blockSize - 1) / blockSize
    let outputBits := u32 (outputLen * 8)
    let fixedInput := label ++ [0x00] ++ context ++ be32 outputBits
    let result :=
      ((List.range numBlocks).map
        (fun j => cmac key (be32 (u32 (j + 1)) ++ fixedInput))).flatten
    .ok (result.take outputLen)

/-- Decimal digit expansion with an explicit fuel bound (so that the
definition reduces by structural recursion); `fuel` bounds the digit count. -/
def decimalAsciiCore (fuel n : Nat) : List Nat :=
  match fuel with
  | 0 => []
  | fuel + 1 =>
    if n < 10 then [48 + n]
    else decimalAsciiCore fuel (n / 10) ++ [48 + n % 10]

/-- `strconv.FormatUint(n, 10)`: the ASCII bytes of the decimal expansion
(a number `n` never has more than `n + 1` digits). -/
def decimalAscii (n : Nat) : List Nat := decimalAsciiCore (n + 1) n

/-- ASCII bytes of a Lean string literal (all source labels are ASCII). -/
def ascii (s : String) : List Nat := s.data.map Char.toNat

/-- `DeriveKey`: numeric-counter wrapper, the context is the base-10 decimal
string of the counter. -/
def DeriveKey (masterKey : List Nat) (outputLen : Nat) (label : List Nat)
    (counter : Nat) : Except GoErr (List Nat) :=
  SP800108CounterKDF masterKey label (decimalAscii counter) outputLen

/-- `DeriveNonceKey`. -/
def DeriveNonceKey (masterKey : List Nat) (timeCounter : Nat) : Except GoErr (List Nat) :=
  DeriveKey masterKey masterKey.length (ascii "NonceKey") timeCounter

/-- `DeriveNonce`. -/
def DeriveNonce (nonceKey : List Nat) (seqCounter : Nat) : Except GoErr (List Nat) :=
  DeriveKey nonceKey 12 (ascii "Nonce") seqCounter

/-- `DeriveEncryptionKeyIntermediate`. -/
def DeriveEncryptionKeyIntermediate (masterKey : List Nat) (timeCounter : Nat) :
    Except GoErr (List Nat) :=
  DeriveKey masterKey masterKey.length (ascii "EncryptionKey") timeCounter

/-- `DeriveEncryptionKey`. -/
def DeriveEncryptionKey (intermediateKey : List Nat) (seqCounter : Nat) :
    Except GoErr (List Nat) :=
  DeriveKey intermediateKey intermediateKey.length (ascii "Key") seqCounter

/-- `FullNonceDerivation`: two-stage nonce derivation. -/
def FullNonceDerivation (masterKey : List Nat) (timeCounter seqCounter : Nat) :
    Except GoErr (List Nat) :=
  match DeriveNonceKey masterKey timeCounter with
  | .error e => .error (.wrapped .nonceKeyStage e)
  | .ok nonceKey => DeriveNonce nonceKey seqCounter

/-- `FullEncryptionKeyDerivation`: two-stage encryption-key derivation. -/
def FullEncryptionKeyDerivation (masterKey : List Nat) (timeCounter seqCounter : Nat) :
    Except GoErr (List Nat) :=
  match DeriveEncryptionKeyIntermediate masterKey timeCounter with
  | .error e => .error (.wrapped .encKeyIntermediateStage e)
  | .ok intermediateKey => DeriveEncryptionKey intermediateKey seqCounter

/-! ### `internal/crypto/aesctr.go` -/

/-- `NonceSize`. -/
def NonceSize : Nat := 12

/-- `AESCTRDecrypt`: AES-CTR with a 12-byte nonce and a 4-byte block counter
starting at 0; the keystream block for counter `c` is
`AES(key, nonce || [c]_2)` and is XORed with the input. -/
def AESCTRDecrypt (key nonce ciphertext : List Nat) : Except GoErr (List Nat) :=
  if key.length ≠ 16 ∧ key.length ≠ 32 then
    .error (.invalidKeySizeMsg key.length)
  else if nonce.length ≠ NonceSize then
    .error (.invalidNonceSizeMsg nonce.length)
  else
    let numBlocks := (ciphertext.length + 15) / 16
    let keystream :=
      ((List.range numBlocks).map (fun c => aesEncryptBlock key (nonce ++ be32 (u32 c)))).flatten
    .ok (List.zipWith (· ^^^ ·) ciphertext keystream)

/-- `AESCTREncrypt`: CTR mode is symmetric. -/
def AESCTREncrypt (key nonce plaintext : List Nat) : Except GoErr (List Nat) :=
  AESCTRDecrypt key nonce plaintext

/-! ### `internal/crypto/decrypt.go`

`time.Time` values are modelled by their (non-negative) Unix-seconds value;
the `time.Now()` fallback for a zero `ExpectedTime` is environment input and
is outside the model: `Decrypt`/`FindTimeCounter` take the resolved expected
time explicitly, and the functional options are resolved to their two fields
(`SearchWindowDays`, `ExpectedTime`). -/

/-- `MinPacketSize` (2 header + 4 reserved + 4 auth tag). -/
def MinPacketSize : Nat := 10

/-- `AuthTagOffset`. -/
def AuthTagOffset : Nat := 6

/-- `PayloadOffset`. -/
def PayloadOffset : Nat := 10

/-- `SequenceNumberMask`. -/
def SequenceNumberMask : Nat := 0x3FF

/-- `DefaultSearchWindowDays`. -/
def DefaultSearchWindowDays : Nat := 2

/-- `SecondsPerDay`. -/
def SecondsPerDay : Nat := 86400

/-- `ParsedPacket`. -/
structure ParsedPacket where
  SequenceNumber : Nat    -- uint16, 10-bit sequence counter
  AuthTag : List Nat      -- 4-byte truncated CMAC
  EncryptedPayload : List Nat
  RawPacket : List Nat
  deriving DecidableEq, Repr

/-- `ParsePacket`: big-endian 16-bit sequence field masked to 10 bits, auth
tag at bytes `[6,10)`, payload from byte 10. -/
def ParsePacket (payload : List Nat) : Except GoErr ParsedPacket :=
  if payload.length < MinPacketSize then
    .error (.wrapped .packetTooShortDetail .errPacketTooShort)
  else
    -- binary.BigEndian.Uint16(payload[0:2]); bytes are < 256 so `<<8 |` is `*256 +`
    let seqRaw := payload.getD 0 0 * 256 + payload.getD 1 0
    let seqNum := seqRaw &&& SequenceNumberMask
    let authTag := (payload.drop AuthTagOffset).take AuthTagSize
    let encPayload := payload.drop PayloadOffset
    .ok ⟨seqNum, authTag, encPayload, payload⟩

/-- `DecryptResult`. -/
structure DecryptResult where
  Payload : List Nat
  TimeCounter : Nat  -- uint32
  SeqCounter : Nat   -- uint32
  deriving DecidableEq, Repr

/-- `TimeToCounter`: `uint32(t.Unix() / 86400)`, days since the Unix epoch. -/
def TimeToCounter (unixSeconds : Nat) : Nat := u32 (unixSeconds / SecondsPerDay)

/-- `CounterToTime`: midnight UTC of the given day, as Unix seconds. -/
def CounterToTime (counter : Nat) : Nat := counter * SecondsPerDay

/-- `tryDecrypt`: derive the per-candidate keys, verify the truncated tag
over `raw[0:6]`, and on a match decrypt the payload with AES-CTR. -/
def tryDecrypt (key : List Nat) (parsed : ParsedPacket) (timeCounter : Nat) :
    Except GoErr DecryptResult :=
  let seqCounter := parsed.SequenceNumber
  let authData := parsed.RawPacket.take AuthTagOffset
  match FullEncryptionKeyDerivation key timeCounter seqCounter with
  | .error e => .error (.wrapped .keyDerivation e)
  | .ok encKey =>
    match ComputeAuthTag encKey authData with
    | .error e => .error (.wrapped .authTagComputation e)
    | .ok _expectedTag =>
      match VerifyAuthTag encKey authData parsed.AuthTag with
      | .error e => .error e
      | .ok valid =>
        if !valid then .error .errAuthenticationFail
        else
          match FullNonceDerivation key timeCounter seqCounter with
          | .error e => .error (.wrapped .nonceDerivation e)
          | .ok nonce =>
            match AESCTRDecrypt encKey nonce parsed.EncryptedPayload with
            | .error e => .error (.wrapped .ctrDecryption e)
            | .ok plaintext => .ok ⟨plaintext, timeCounter, seqCounter⟩

/-- Go `uint32` subtraction `a - b` with wraparound. -/
def u32sub (a b : Nat) : Nat := (a + (4294967296 - b % 4294967296)) % 4294967296

/-- The ascending candidate list of the search loop
`for tc := minCounter; tc <= maxCounter; tc++`: empty when
`minCounter > maxCounter` (zero iterations), else the inclusive range.
(When `maxCounter = 2^32 - 1` and no candidate matches, the Go loop counter
wraps and the loop does not terminate; theorems about window exhaustion
therefore carry the hypothesis `maxCounter < 2^32 - 1`.) -/
def searchCandidates (minCounter maxCounter : Nat) : List Nat :=
  if minCounter ≤ maxCounter then List.range' minCounter (maxCounter + 1 - minCounter) else []

/-- The body of `Decrypt`'s search: return the first candidate's successful
result, else `ErrDecryptionFailed` after exhaustion. -/
def searchLoop (key : List Nat) (parsed : ParsedPacket) : List Nat → Except GoErr DecryptResult
  | [] => .error .errDecryptionFailed
  | tc :: rest =>
    match tryDecrypt key parsed tc with
    | .ok result => .ok result
    | .error _ => searchLoop key parsed rest

/-- `Decrypt` with resolved options: validate the key, parse the packet, and
scan the counter window `[baseCounter - W, baseCounter + W]` (in wrapping
`uint32` arithmetic) ascending for the first authenticating candidate. -/
def Decrypt (key payload : List Nat) (expectedTimeUnix searchWindowDays : Nat) :
    Except GoErr DecryptResult :=
  if key.length ≠ 16 ∧ key.length ≠ 32 then
    .error .errInvalidKey
  else
    match ParsePacket payload with
    | .error e => .error e
    | .ok parsed =>
      let baseCounter := TimeToCounter expectedTimeUnix
      let minCounter := u32sub baseCounter (u32 searchWindowDays)
      let maxCounter := u32 (baseCounter + u32 searchWindowDays)
      searchLoop key parsed (searchCandidates minCounter maxCounter)

/-- `DecryptWithKnownCounter`: no search, a single `tryDecrypt`. -/
def DecryptWithKnownCounter (key payload : List Nat) (timeCounter : Nat) :
    Except GoErr DecryptResult :=
  if key.length ≠ 16 ∧ key.length ≠ 32 then
    .error .errInvalidKey
  else
    match ParsePacket payload with
    | .error e => .error e
    | .ok parsed => tryDecrypt key parsed timeCounter

/-- The body of `FindTimeCounter`'s search: per candidate only key derivation
plus tag verification; `continue` on a derivation error or a verify error. -/
def findLoop (key : List Nat) (parsed : ParsedPacket) : List Nat → Except GoErr Nat
  | [] => .error .errDecryptionFailed
  | tc :: rest =>
    match FullEncryptionKeyDerivation key tc parsed.SequenceNumber with
    | .error _ => findLoop key parsed rest
    | .ok encKey =>
      match VerifyAuthTag encKey (parsed.RawPacket.take AuthTagOffset) parsed.AuthTag with
      | .ok true => .ok tc
      | _ => findLoop key parsed rest

/-- `FindTimeCounter` with resolved options: the same search loop as
`Decrypt` but without the stream-cipher step. -/
def FindTimeCounter (key payload : List Nat) (expectedTimeUnix searchWindowDays : Nat) :
    Except GoErr Nat :=
  if key.length ≠ 16 ∧ key.length ≠ 32 then
    .error .errInvalidKey
  else
    match ParsePacket payload with
    | .error e => .error e
    | .ok parsed =>
      let baseCounter := TimeToCounter expectedTimeUnix
      let minCounter := u32sub baseCounter (u32 searchWindowDays)
      let maxCounter := u32 (baseCounter + u32 searchWindowDays)
      findLoop key parsed (searchCandidates minCounter maxCounter)

/-! ### Packet assembly (encrypt direction, from `TestDecryptIntegration`)

The test builds a 6-byte header `[byte(S >> 8), byte(S & 0xFF), 0, 0, 0, 0]`,
computes the auth tag over the header with the derived encryption key,
encrypts the plaintext with AES-CTR under the derived key and nonce, and
concatenates `header || authTag || ciphertext`.  The test's `require.NoError`
steps correspond to the `.toOption.getD []` discharges (none is taken for a
valid master key). -/

def assemblePacket (key : List Nat) (timeCounter seqCounter : Nat) (plaintext : List Nat) :
    List Nat :=
  let encKey := (FullEncryptionKeyDerivation key timeCounter seqCounter).toOption.getD []
  let nonce := (FullNonceDerivation key timeCounter seqCounter).toOption.getD []
  let ciphertext := (AESCTREncrypt encKey nonce plaintext).toOption.getD []
  let header := [(seqCounter >>> 8) % 256, seqCounter % 256, 0, 0, 0, 0]
  let authTag := (ComputeAuthTag encKey header).toOption.getD []
  header ++ authTag ++ ciphertext

/-! ### Observables used in theorem statements -/

/-- Whether the truncated auth tag of a parsed packet verifies under the key
schedule of candidate counter `tc` (the per-candidate test both search loops
perform). -/
def tagMatchesAt (key : List Nat) (parsed : ParsedPacket) (tc : Nat) : Bool :=
  match FullEncryptionKeyDerivation key tc parsed.SequenceNumber with
  | .error _ => false
  | .ok encKey =>
    match VerifyAuthTag encKey (parsed.RawPacket.take AuthTagOffset) parsed.AuthTag with
    | .ok b => b
    | .error _ => false

/-- `tagMatchesAt` lifted to raw packet bytes. -/
def authTagMatchesAt (key payload : List Nat) (tc : Nat) : Bool :=
  match ParsePacket payload with
  | .error _ => false
  | .ok parsed => tagMatchesAt key parsed tc

/-! ### Length and success lemmas for the derivation chain -/

theorem length_flatten_of_map_const16 (f : Nat → List Nat) (n : Nat)
    (hf : ∀ j, (f j).length = 16) :
    ((List.range n).map f).flatten.length = 16 * n := by
  rw [List.length_flatten, List.map_map]
  have h : List.length ∘ f = fun _ : Nat => 16 := funext fun j => hf j
  rw [h, List.map_const', List.sum_replicate, List.length_range]
  simp [Nat.mul_comm]

/-- For a valid key the KDF succeeds and yields the truncation of the
concatenated PRF blocks. -/
theorem kdf_eq_ok (key label context : List Nat) (outputLen : Nat)
    (hK : key.length = 16 ∨ key.length = 32) :
    SP800108CounterKDF key label context outputLen =
      .ok ((((List.range ((outputLen + 16 - 1) / 16)).map
        (fun j => cmac key (be32 (u32 (j + 1)) ++
          (label ++ [0x00] ++ context ++ be32 (u32 (outputLen * 8)))))).flatten).take
            outputLen) := by
  unfold SP800108CounterKDF
  rcases hK with h | h <;> simp [h]

/-- For a valid key the KDF output has exactly the requested length. -/
theorem kdf_length (key label context : List Nat) (outputLen : Nat)
    (hK : key.length = 16 ∨ key.length = 32) :
    ∃ out, SP800108CounterKDF key label context outputLen = .ok out ∧
      out.length = outputLen := by
  refine ⟨_, kdf_eq_ok key label context outputLen hK, ?_⟩
  rw [List.length_take, length_flatten_of_map_const16 _ _ (fun _ => length_cmac ..)]
  omega

theorem deriveKey_length (masterKey : List Nat) (outputLen : Nat) (label : List Nat)
    (counter : Nat) (hK : masterKey.length = 16 ∨ masterKey.length = 32) :
    ∃ out, DeriveKey masterKey outputLen label counter = .ok out ∧
      out.length = outputLen :=
  kdf_length masterKey label (decimalAscii counter) outputLen hK

/-- For a valid master key the two-stage encryption-key derivation succeeds
and produces a key of the master key's length. -/
theorem fullEncKey_length (masterKey : List Nat) (timeCounter seqCounter : Nat)
    (hK : masterKey.length = 16 ∨ masterKey.length = 32) :
    ∃ encKey, FullEncryptionKeyDerivation masterKey timeCounter seqCounter = .ok encKey ∧
      encKey.length = masterKey.length := by
  obtain ⟨ik, hik, hlen⟩ := deriveKey_length masterKey masterKey.length
    (ascii "EncryptionKey") timeCounter hK
  obtain ⟨out, hout, holen⟩ := deriveKey_length ik ik.length (ascii "Key") seqCounter
    (by rw [hlen]; exact hK)
  exact ⟨out, by
    unfold FullEncryptionKeyDerivation DeriveEncryptionKeyIntermediate DeriveEncryptionKey
    unfold DeriveKey at hik hout ⊢
    rw [hik]; exact hout, by omega⟩

/-- For a valid master key the two-stage nonce derivation succeeds and
produces a 12-byte nonce. -/
theorem fullNonce_length (masterKey : List Nat) (timeCounter seqCounter : Nat)
    (hK : masterKey.length = 16 ∨ masterKey.length = 32) :
    ∃ nonce, FullNonceDerivation masterKey timeCounter seqCounter = .ok nonce ∧
      nonce.length = 12 := by
  obtain ⟨nk, hnk, hlen⟩ := deriveKey_length masterKey masterKey.length
    (ascii "NonceKey") timeCounter hK
  obtain ⟨out, hout, holen⟩ := deriveKey_length nk 12 (ascii "Nonce") seqCounter
    (by rw [hlen]; exact hK)
  exact ⟨out, by
    unfold FullNonceDerivation DeriveNonceKey DeriveNonce
    unfold DeriveKey at hnk hout ⊢
    rw [hnk]; exact hout, holen⟩

/-! ### Constant-time comparison is an equality test -/

theorem or_eq_zero_iff (a b : Nat) : a ||| b = 0 ↔ a = 0 ∧ b = 0 := by
  constructor
  · intro h
    refine ⟨Nat.eq_of_testBit_eq fun i => ?_, Nat.eq_of_testBit_eq fun i => ?_⟩ <;>
    · have h2 := congrArg (fun n => Nat.testBit n i) h
      simp [Nat.testBit_or] at h2
      simp [h2.1, h2.2]
  · rintro ⟨rfl, rfl⟩
    rfl

theorem foldl_or_eq_zero (l : List Nat) (acc : Nat) :
    l.foldl (· ||| ·) acc = 0 ↔ acc = 0 ∧ ∀ x ∈ l, x = 0 := by
  induction l generalizing acc with
  | nil => simp
  | cons a l ih =>
    rw [List.foldl_cons, ih, or_eq_zero_iff]
    constructor
    · rintro ⟨⟨h1, h2⟩, h3⟩
      exact ⟨h1, by simpa [h2] using h3⟩
    · rintro ⟨h1, h2⟩
      exact ⟨⟨h1, h2 a (by simp)⟩, fun x hx => h2 x (by simp [hx])⟩

theorem zipWith_xor_all_zero (x y : List Nat) (h : x.length = y.length) :
    (∀ z ∈ List.zipWith (· ^^^ ·) x y, z = 0) ↔ x = y := by
  induction x generalizing y with
  | nil => cases y <;> simp_all
  | cons a x ih =>
    cases y with
    | nil => simp at h
    | cons b y =>
      simp only [List.zipWith_cons_cons, List.mem_cons, List.length_cons] at h ⊢
      constructor
      · intro hz
        have hab : a = b := Nat.xor_eq_zero.mp (hz _ (Or.inl rfl))
        have := (ih y (by omega)).mp (fun z hzz => hz z (Or.inr hzz))
        simp [hab, this]
      · rintro ⟨rfl, rfl⟩
        intro z hz
        rcases hz with h | h
        · simp [h]
        · exact (ih x rfl).mpr rfl z h

theorem constantTimeCompare_eq_one_iff (x y : List Nat) (h : x.length = y.length) :
    constantTimeCompare x y = 1 ↔ x = y := by
  unfold constantTimeCompare
  rw [if_neg (by omega)]
  rcases Decidable.em ((List.zipWith (· ^^^ ·) x y).foldl (· ||| ·) 0 = 0) with hz | hz
  · rw [if_pos hz]
    have := (foldl_or_eq_zero _ 0).mp hz
    simp [(zipWith_xor_all_zero x y h).mp this.2]
  · rw [if_neg hz]
    constructor
    · omega
    · rintro rfl
      exact absurd ((foldl_or_eq_zero _ 0).mpr
        ⟨rfl, (zipWith_xor_all_zero x x rfl).mpr rfl⟩) hz

theorem constantTimeCompare_self (x : List Nat) : constantTimeCompare x x = 1 :=
  (constantTimeCompare_eq_one_iff x x rfl).mpr rfl

/-! ### Tag computation and verification lemmas -/

theorem computeAuthTag_ok (key data : List Nat) (hK : key.length = 16 ∨ key.length = 32) :
    ComputeAuthTag key data = .ok ((cmac key data).take 4) := by
  unfold ComputeAuthTag AuthTagSize
  rcases hK with h | h <;> simp [h]

theorem computeFullCMAC_ok (key data : List Nat) (hK : key.length = 16 ∨ key.length = 32) :
    ComputeFullCMAC key data = .ok (cmac key data) := by
  unfold ComputeFullCMAC
  rcases hK with h | h <;> simp [h]

theorem verifyAuthTag_ok (key data tag : List Nat) (hK : key.length = 16 ∨ key.length = 32)
    (hTag : tag.length = 4) :
    VerifyAuthTag key data tag =
      .ok (constantTimeCompare ((cmac key data).take 4) tag = 1) := by
  unfold VerifyAuthTag AuthTagSize
  rw [if_neg (by omega), computeAuthTag_ok key data hK]

theorem verifyAuthTag_iff (key data tag : List Nat) (hK : key.length = 16 ∨ key.length = 32)
    (hTag : tag.length = 4) :
    VerifyAuthTag key data tag = .ok true ↔ tag = (cmac key data).take 4 := by
  rw [verifyAuthTag_ok key data tag hK hTag]
  have hlen : ((cmac key data).take 4).length = tag.length := by
    rw [List.length_take, length_cmac, hTag]
    rfl
  constructor
  · intro h
    have hb : (decide (constantTimeCompare ((cmac key data).take 4) tag = 1)) = true := by
      exact Except.ok.inj h
    exact ((constantTimeCompare_eq_one_iff _ _ hlen).mp (of_decide_eq_true hb)).symm
  · rintro rfl
    simp [constantTimeCompare_self]

/-! ### AES-CTR round-trip -/

theorem zipWith_xor_cancel (pt ks : List Nat) (h : pt.length ≤ ks.length) :
    List.zipWith (· ^^^ ·) (List.zipWith (· ^^^ ·) pt ks) ks = pt := by
  induction pt generalizing ks with
  | nil => simp
  | cons p pt ih =>
    cases ks with
    | nil => simp at h
    | cons k ks =>
      simp only [List.zipWith_cons_cons, List.length_cons] at h ⊢
      rw [Nat.xor_cancel_right, ih ks (by omega)]

theorem aesctr_ok (key nonce data : List Nat) (hK : key.length = 16 ∨ key.length = 32)
    (hN : nonce.length = 12) :
    AESCTRDecrypt key nonce data =
      .ok (List.zipWith (· ^^^ ·) data
        (((List.range ((data.length + 15) / 16)).map
          (fun c => aesEncryptBlock key (nonce ++ be32 (u32 c)))).flatten)) := by
  unfold AESCTRDecrypt NonceSize
  rw [if_neg (by omega), if_neg (by omega)]

theorem aesctr_roundtrip (key nonce pt : List Nat) (hK : key.length = 16 ∨ key.length = 32)
    (hN : nonce.length = 12) :
    ∃ ct, AESCTREncrypt key nonce pt = .ok ct ∧ ct.length = pt.length ∧
      AESCTRDecrypt key nonce ct = .ok pt := by
  have hks : (((List.range ((pt.length + 15) / 16)).map
      (fun c => aesEncryptBlock key (nonce ++ be32 (u32 c)))).flatten).length =
      16 * ((pt.length + 15) / 16) :=
    length_flatten_of_map_const16 _ _ (fun _ => length_aesEncryptBlock ..)
  have hkslen : pt.length ≤ (((List.range ((pt.length + 15) / 16)).map
      (fun c => aesEncryptBlock key (nonce ++ be32 (u32 c)))).flatten).length := by
    rw [hks]; omega
  refine ⟨_, by rw [AESCTREncrypt, aesctr_ok key nonce pt hK hN], ?_, ?_⟩
  · rw [List.length_zipWith]; omega
  · have hct : (List.zipWith (· ^^^ ·) pt
        (((List.range ((pt.length + 15) / 16)).map
          (fun c => aesEncryptBlock key (nonce ++ be32 (u32 c)))).flatten)).length =
        pt.length := by
      rw [List.length_zipWith]; omega
    rw [aesctr_ok key nonce _ hK hN, hct, zipWith_xor_cancel pt _ hkslen]

/-! ### Packet parsing lemmas -/

theorem parsePacket_ok (payload : List Nat) (h : 10 ≤ payload.length) :
    ParsePacket payload = .ok
      ⟨(payload.getD 0 0 * 256 + payload.getD 1 0) &&& 1023,
       (payload.drop 6).take 4, payload.drop 10, payload⟩ := by
  unfold ParsePacket MinPacketSize AuthTagOffset PayloadOffset AuthTagSize SequenceNumberMask
  rw [if_neg (by omega)]

theorem parsePacket_short (payload : List Nat) (h : payload.length < 10) :
    ParsePacket payload = .error (.wrapped .packetTooShortDetail .errPacketTooShort) := by
  unfold ParsePacket MinPacketSize
  rw [if_pos h]

theorem parsePacket_authTag_length (payload : List Nat) (parsed : ParsedPacket)
    (h : ParsePacket payload = .ok parsed) : parsed.AuthTag.length = 4 := by
  rcases Nat.lt_or_ge payload.length 10 with hl | hl
  · rw [parsePacket_short payload hl] at h
    exact absurd h (by simp)
  · rw [parsePacket_ok payload hl] at h
    have := Except.ok.inj h
    rw [← this]
    simp only [List.length_take, List.length_drop]
    omega

/-! ### Characterization of `tryDecrypt`: for a valid key, a candidate either
authenticates (and then decryption succeeds, echoing the candidate counter
and the packet's sequence number) or fails with exactly
`ErrAuthenticationFail`. -/

theorem tryDecrypt_of_match (key : List Nat) (parsed : ParsedPacket) (tc : Nat)
    (hK : key.length = 16 ∨ key.length = 32) (hTag : parsed.AuthTag.length = 4)
    (hm : tagMatchesAt key parsed tc = true) :
    ∃ pl, tryDecrypt key parsed tc = .ok ⟨pl, tc, parsed.SequenceNumber⟩ := by
  obtain ⟨encKey, hEnc, hEncLen⟩ := fullEncKey_length key tc parsed.SequenceNumber hK
  have hKe : encKey.length = 16 ∨ encKey.length = 32 := by rw [hEncLen]; exact hK
  obtain ⟨nonce, hNonce, hNonceLen⟩ := fullNonce_length key tc parsed.SequenceNumber hK
  unfold tagMatchesAt at hm
  rw [hEnc] at hm
  simp only [verifyAuthTag_ok _ _ _ hKe hTag] at hm
  unfold tryDecrypt
  simp only [hEnc, computeAuthTag_ok _ _ hKe, verifyAuthTag_ok _ _ _ hKe hTag, hm,
    Bool.not_true, Bool.false_eq_true, if_false, hNonce,
    aesctr_ok encKey nonce parsed.EncryptedPayload hKe hNonceLen]
  exact ⟨_, rfl⟩

theorem tryDecrypt_of_mismatch (key : List Nat) (parsed : ParsedPacket) (tc : Nat)
    (hK : key.length = 16 ∨ key.length = 32) (hTag : parsed.AuthTag.length = 4)
    (hm : tagMatchesAt key parsed tc = false) :
    tryDecrypt key parsed tc = .error .errAuthenticationFail := by
  obtain ⟨encKey, hEnc, hEncLen⟩ := fullEncKey_length key tc parsed.SequenceNumber hK
  have hKe : encKey.length = 16 ∨ encKey.length = 32 := by rw [hEncLen]; exact hK
  unfold tagMatchesAt at hm
  rw [hEnc] at hm
  simp only [verifyAuthTag_ok _ _ _ hKe hTag] at hm
  unfold tryDecrypt
  simp only [hEnc, computeAuthTag_ok _ _ hKe, verifyAuthTag_ok _ _ _ hKe hTag, hm,
    Bool.not_false, if_true]

/-! ### Search-loop lemmas -/

theorem searchLoop_range'_none (key : List Nat) (parsed : ParsedPacket)
    (hK : key.length = 16 ∨ key.length = 32) (hTag : parsed.AuthTag.length = 4)
    (n : Nat) :
    ∀ a, (∀ tc, a ≤ tc → tc < a + n → tagMatchesAt key parsed tc = false) →
      searchLoop key parsed (List.range' a n) = .error .errDecryptionFailed := by
  induction n with
  | zero => intro a _; rfl
  | succ n ih =>
    intro a hfail
    show searchLoop key parsed (a :: List.range' (a + 1) n) = _
    rw [searchLoop, tryDecrypt_of_mismatch key parsed a hK hTag
      (hfail a le_rfl (by omega))]
    exact ih (a + 1) (fun tc h1 h2 => hfail tc (by omega) (by omega))

theorem searchLoop_range'_first (key : List Nat) (parsed : ParsedPacket)
    (hK : key.length = 16 ∨ key.length = 32) (hTag : parsed.AuthTag.length = 4)
    (n : Nat) :
    ∀ a, (∃ tc, a ≤ tc ∧ tc < a + n ∧ tagMatchesAt key parsed tc = true) →
      ∃ r, searchLoop key parsed (List.range' a n) = .ok r ∧
        a ≤ r.TimeCounter ∧ r.TimeCounter < a + n ∧
        r.SeqCounter = parsed.SequenceNumber ∧
        tagMatchesAt key parsed r.TimeCounter = true ∧
        ∀ tc, a ≤ tc → tc < r.TimeCounter → tagMatchesAt key parsed tc = false := by
  induction n with
  | zero =>
    intro a ⟨tc, h1, h2, _⟩
    omega
  | succ n ih =>
    intro a hex
    rcases hma : tagMatchesAt key parsed a with hf | ht
    · -- head candidate fails, recurse into the tail
      obtain ⟨tc, h1, h2, h3⟩ := hex
      have htc : a + 1 ≤ tc := by
        rcases Nat.eq_or_lt_of_le h1 with rfl | h
        · rw [hma] at h3; exact absurd h3 (by simp)
        · omega
      obtain ⟨r, hr, hr1, hr2, hr3, hr4, hr5⟩ := ih (a + 1) ⟨tc, htc, by omega, h3⟩
      refine ⟨r, ?_, by omega, by omega, hr3, hr4, ?_⟩
      · show searchLoop key parsed (a :: List.range' (a + 1) n) = _
        rw [searchLoop, tryDecrypt_of_mismatch key parsed a hK hTag hma]
        exact hr
      · intro tc2 hl hu
        rcases Nat.eq_or_lt_of_le hl with rfl | h
        · exact hma
        · exact hr5 tc2 (by omega) hu
    · -- head candidate authenticates: first success
      obtain ⟨pl, hok⟩ := tryDecrypt_of_match key parsed a hK hTag hma
      refine ⟨⟨pl, a, parsed.SequenceNumber⟩, ?_, le_rfl,
        Nat.lt_succ_of_le (Nat.le_add_right a n), rfl, hma, ?_⟩
      · show searchLoop key parsed (a :: List.range' (a + 1) n) = _
        rw [searchLoop, hok]
      · exact fun tc hl hu => absurd (Nat.lt_of_le_of_lt hl hu) (Nat.lt_irrefl a)

/-! ### `FindTimeCounter` agrees with `Decrypt` (projection to the counter) -/

theorem findLoop_eq_searchLoop (key : List Nat) (parsed : ParsedPacket)
    (hK : key.length = 16 ∨ key.length = 32) (hTag : parsed.AuthTag.length = 4)
    (cands : List Nat) :
    findLoop key parsed cands = (searchLoop key parsed cands).map (·.TimeCounter) := by
  induction cands with
  | nil => rfl
  | cons tc rest ih =>
    obtain ⟨encKey, hEnc, hEncLen⟩ := fullEncKey_length key tc parsed.SequenceNumber hK
    have hKe : encKey.length = 16 ∨ encKey.length = 32 := by rw [hEncLen]; exact hK
    rcases hm : tagMatchesAt key parsed tc with hf | ht
    · rw [searchLoop, tryDecrypt_of_mismatch key parsed tc hK hTag hm, findLoop]
      unfold tagMatchesAt at hm
      rw [hEnc] at hm
      simp only [verifyAuthTag_ok _ _ _ hKe hTag] at hm
      simp only [hEnc, verifyAuthTag_ok _ _ _ hKe hTag, hm]
      exact ih
    · obtain ⟨pl, hok⟩ := tryDecrypt_of_match key parsed tc hK hTag hm
      rw [searchLoop, hok, findLoop]
      unfold tagMatchesAt at hm
      rw [hEnc] at hm
      simp only [verifyAuthTag_ok _ _ _ hKe hTag] at hm
      simp only [hEnc, verifyAuthTag_ok _ _ _ hKe hTag, hm]
      rfl

/-! ### Window arithmetic -/

theorem timeToCounter_lt (eu : Nat) : TimeToCounter eu < 4294967296 :=
  Nat.mod_lt _ (by omega)

/-- With a sane window (`W ≤ baseCounter`, no `uint32` overflow at the top),
the candidate list is exactly the inclusive ascending range of width
`2*W + 1` centred at the base counter. -/
theorem searchCandidates_of_sane (B W : Nat) (hW : W ≤ B) (hB : B < 4294967296)
    (hmax : B + W < 4294967296) :
    searchCandidates (u32sub B (u32 W)) (u32 (B + u32 W)) =
      List.range' (B - W) (2 * W + 1) := by
  have h1 : u32sub B (u32 W) = B - W := by
    unfold u32sub u32
    omega
  have h2 : u32 (B + u32 W) = B + W := by
    unfold u32
    omega
  rw [h1, h2]
  unfold searchCandidates
  rw [if_pos (by omega)]
  congr 1
  omega

theorem decrypt_eq_searchLoop (key payload : List Nat) (eu W : Nat)
    (parsed : ParsedPacket)
    (hkey : ¬(key.length ≠ 16 ∧ key.length ≠ 32))
    (hp : ParsePacket payload = .ok parsed)
    (hW : W ≤ TimeToCounter eu) (hmax : TimeToCounter eu + W < 4294967296) :
    Decrypt key payload eu W =
      searchLoop key parsed (List.range' (TimeToCounter eu - W) (2 * W + 1)) := by
  unfold Decrypt
  rw [if_neg hkey, hp]
  simp only [searchCandidates_of_sane (TimeToCounter eu) W hW (timeToCounter_lt eu) hmax]

theorem findTimeCounter_eq_findLoop (key payload : List Nat) (eu W : Nat)
    (parsed : ParsedPacket)
    (hkey : ¬(key.length ≠ 16 ∧ key.length ≠ 32))
    (hp : ParsePacket payload = .ok parsed)
    (hW : W ≤ TimeToCounter eu) (hmax : TimeToCounter eu + W < 4294967296) :
    FindTimeCounter key payload eu W =
      findLoop key parsed (List.range' (TimeToCounter eu - W) (2 * W + 1)) := by
  unfold FindTimeCounter
  rw [if_neg hkey, hp]
  simp only [searchCandidates_of_sane (TimeToCounter eu) W hW (timeToCounter_lt eu) hmax]

/-- `x &&& 0x3FF` keeps exactly the low 10 bits. -/
theorem and_1023_eq_mod (a : Nat) : a &&& 1023 = a % 1024 := by
  have h := Nat.and_pow_two_sub_one_eq_mod a 10
  norm_num at h
  exact h

/-! ## Claim theorems -/

/-- C5: for every input of at least 10 bytes, `ParsePacket` sets
`SequenceNumber` to the big-endian 16-bit integer of bytes `[0,2)` masked
with `0x3FF` (equivalently, reduced mod 1024): set high bits are discarded,
never cause rejection; header bytes `0xFF 0xFF` yield 1023 and `0x00 0x42`
yield 66. -/
theorem C5_sequence_masking (payload : List Nat) (h : 10 ≤ payload.length) :
    (∃ parsed, ParsePacket payload = .ok parsed ∧
      parsed.SequenceNumber = (payload.getD 0 0 * 256 + payload.getD 1 0) &&& 0x3FF ∧
      parsed.SequenceNumber = (payload.getD 0 0 * 256 + payload.getD 1 0) % 1024) ∧
    (ParsePacket [0xFF, 0xFF, 0, 0, 0, 0, 0, 0, 0, 0]).map ParsedPacket.SequenceNumber
      = .ok 1023 ∧
    (ParsePacket [0x00, 0x42, 0, 0, 0, 0, 0, 0, 0, 0]).map ParsedPacket.SequenceNumber
      = .ok 66 := by
  refine ⟨⟨_, parsePacket_ok payload h, rfl, ?_⟩, rfl, rfl⟩
  exact and_1023_eq_mod _

theorem C5_sequence_masking_witness :
    (10 ≤ ([0xAB, 0xCD, 0, 0, 0, 0, 0, 0, 0, 0] : List Nat).length) ∧
    ∃ parsed, ParsePacket [0xAB, 0xCD, 0, 0, 0, 0, 0, 0, 0, 0] = .ok parsed ∧
      parsed.SequenceNumber = (0xAB * 256 + 0xCD) % 1024 := by
  refine ⟨by decide, ?_⟩
  obtain ⟨⟨parsed, h1, _, h3⟩, _, _⟩ :=
    C5_sequence_masking [0xAB, 0xCD, 0, 0, 0, 0, 0, 0, 0, 0] (by decide)
  exact ⟨parsed, h1, by simpa using h3⟩

/-- C6: `ParsePacket` fails with `PacketTooShort` exactly when the input is
shorter than 10 bytes; a 10-byte input parses with an empty payload; the
auth tag is bytes `[6,10)` and the payload bytes `[10, len)`. -/
theorem C6_minimum_size (payload : List Nat) :
    (payload.length < 10 →
      ParsePacket payload = .error (.wrapped .packetTooShortDetail .errPacketTooShort)) ∧
    (10 ≤ payload.length →
      ∃ parsed, ParsePacket payload = .ok parsed ∧
        parsed.AuthTag = (payload.drop 6).take 4 ∧
        parsed.EncryptedPayload = payload.drop 10 ∧
        (payload.length = 10 → parsed.EncryptedPayload = [])) := by
  refine ⟨parsePacket_short payload, fun h => ⟨_, parsePacket_ok payload h, rfl, rfl, ?_⟩⟩
  intro h10
  simp only
  rw [List.drop_eq_nil_iff]
  omega

theorem C6_minimum_size_witness :
    ParsePacket (List.replicate 9 0) =
      .error (.wrapped .packetTooShortDetail .errPacketTooShort) ∧
    ∃ parsed, ParsePacket (List.replicate 10 0) = .ok parsed ∧
      parsed.EncryptedPayload = [] := by
  refine ⟨(C6_minimum_size (List.replicate 9 0)).1 (by decide), ?_⟩
  obtain ⟨parsed, h1, _, _, h4⟩ :=
    (C6_minimum_size (List.replicate 10 0)).2 (by decide)
  exact ⟨parsed, h1, h4 (by decide)⟩

/-- C3: for a valid key, the KDF output is the first `outputLen` bytes of the
concatenation `MAC(key, [i]_2 || label || 0x00 || context || [8*L]_2)` for the
32-bit big-endian block counter `i = 1, 2, ...` (any prefix of blocks long
enough to cover `outputLen` gives the same truncation), and the
numeric-counter wrapper `DeriveKey` uses the base-10 decimal string of the
counter as the context. -/
theorem C3_kdf_counter_mode (key label context : List Nat) (outputLen : Nat)
    (hK : key.length = 16 ∨ key.length = 32) :
    (∀ m, outputLen ≤ 16 * m →
      SP800108CounterKDF key label context outputLen =
        .ok ((((List.range' 1 m).map
          (fun i => cmac key (be32 (u32 i) ++
            (label ++ [0x00] ++ context ++ be32 (u32 (outputLen * 8)))))).flatten).take
              outputLen)) ∧
    (∀ c, DeriveKey key outputLen label c =
      SP800108CounterKDF key label (decimalAscii c) outputLen) := by
  constructor
  · intro m hm
    set f : Nat → List Nat := fun i => cmac key (be32 (u32 i) ++
      (label ++ [0x00] ++ context ++ be32 (u32 (outputLen * 8)))) with hf
    set n := (outputLen + 16 - 1) / 16 with hn
    have hmap : (List.range n).map (fun j => f (j + 1)) = (List.range' 1 n).map f := by
      rw [List.range'_eq_map_range, List.map_map]
      exact List.map_congr_left (fun a _ => by
        show f (a + 1) = f (1 + a)
        rw [Nat.add_comm])
    have hkdf : SP800108CounterKDF key label context outputLen =
        .ok ((((List.range' 1 n).map f).flatten).take outputLen) := by
      rw [kdf_eq_ok key label context outputLen hK, ← hmap]
    have hnm : n ≤ m := by omega
    have hsplit : List.range' 1 m = List.range' 1 n ++ List.range' (1 + n) (m - n) := by
      have h2 := List.range'_append 1 n (m - n) 1
      rw [Nat.one_mul] at h2
      rw [h2]
      congr 1
      omega
    rw [hkdf, hsplit, List.map_append, List.flatten_append,
      List.take_append_eq_append_take]
    have hlenA : (((List.range' 1 n).map f).flatten).length = 16 * n := by
      have : ((List.range' 1 n).map f) = ((List.range n).map (fun x => 1 + x)).map f := by
        rw [List.range'_eq_map_range]
      rw [this, List.map_map]
      exact length_flatten_of_map_const16 _ _ (fun _ => length_cmac ..)
    rw [hlenA]
    have hzero : outputLen - 16 * n = 0 := by omega
    rw [hzero, List.take_zero, List.append_nil]
  · intro c
    rfl

theorem C3_kdf_counter_mode_witness :
    ((List.replicate 16 0 : List Nat).length = 16 ∨
      (List.replicate 16 0 : List Nat).length = 32) ∧
    SP800108CounterKDF (List.replicate 16 0) (ascii "Key") [] 20 =
      .ok ((((List.range' 1 2).map
        (fun i => cmac (List.replicate 16 0) (be32 (u32 i) ++
          (ascii "Key" ++ [0x00] ++ [] ++ be32 (u32 (20 * 8)))))).flatten).take 20) ∧
    DeriveKey (List.replicate 16 0) 20 (ascii "Key") 42 =
      SP800108CounterKDF (List.replicate 16 0) (ascii "Key") (decimalAscii 42) 20 := by
  have h := C3_kdf_counter_mode (List.replicate 16 0) (ascii "Key") [] 20 (Or.inl (by decide))
  exact ⟨Or.inl (by decide), h.1 2 (by decide), h.2 42⟩

/-- C4: for every valid key, `ComputeAuthTag` is the first 4 bytes of the
16-byte `ComputeFullCMAC`, and `VerifyAuthTag` returns `true` exactly when
the supplied 4-byte tag equals `ComputeAuthTag`'s value. -/
theorem C4_truncated_tag (key data : List Nat)
    (hK : key.length = 16 ∨ key.length = 32) :
    ∃ full, ComputeFullCMAC key data = .ok full ∧ full.length = 16 ∧
      ComputeAuthTag key data = .ok (full.take 4) ∧
      ∀ tag, tag.length = 4 →
        (VerifyAuthTag key data tag = .ok true ↔ tag = full.take 4) := by
  exact ⟨cmac key data, computeFullCMAC_ok key data hK, length_cmac key data,
    computeAuthTag_ok key data hK,
    fun tag hTag => verifyAuthTag_iff key data tag hK hTag⟩

theorem C4_truncated_tag_witness :
    ((List.replicate 32 7 : List Nat).length = 16 ∨
      (List.replicate 32 7 : List Nat).length = 32) ∧
    ∃ full, ComputeFullCMAC (List.replicate 32 7) [1, 2, 3] = .ok full ∧
      full.length = 16 ∧
      ComputeAuthTag (List.replicate 32 7) [1, 2, 3] = .ok (full.take 4) := by
  obtain ⟨full, h1, h2, h3, _⟩ :=
    C4_truncated_tag (List.replicate 32 7) [1, 2, 3] (Or.inr (by decide))
  exact ⟨Or.inr (by decide), full, h1, h2, h3⟩

/-! ### Skipping a failing prefix of the search window -/

theorem searchLoop_range'_skip (key : List Nat) (parsed : ParsedPacket)
    (hK : key.length = 16 ∨ key.length = 32) (hTag : parsed.AuthTag.length = 4)
    (k : Nat) :
    ∀ a n, (∀ tc, a ≤ tc → tc < a + k → tagMatchesAt key parsed tc = false) →
      searchLoop key parsed (List.range' a (k + n)) =
        searchLoop key parsed (List.range' (a + k) n) := by
  induction k with
  | zero =>
    intro a n _
    simp
  | succ k ih =>
    intro a n hfail
    rw [show k + 1 + n = (k + n) + 1 by omega]
    show searchLoop key parsed (a :: List.range' (a + 1) (k + n)) = _
    rw [searchLoop, tryDecrypt_of_mismatch key parsed a hK hTag
      (hfail a le_rfl (by omega))]
    rw [ih (a + 1) n (fun tc h1 h2 => hfail tc (by omega) (by omega))]
    rw [show a + 1 + k = a + (k + 1) by omega]

/-! ### The assembled packet parses back and authenticates at its counter -/

theorem tryDecrypt_assembled (K P : List Nat) (T S : Nat)
    (hK : K.length = 16 ∨ K.length = 32) (hS : S ≤ 1023) :
    ∃ parsed, ParsePacket (assemblePacket K T S P) = .ok parsed ∧
      parsed.AuthTag.length = 4 ∧
      tagMatchesAt K parsed T = true ∧
      tryDecrypt K parsed T = .ok ⟨P, T, S⟩ := by
  obtain ⟨encKey, hEnc, hEncLen⟩ := fullEncKey_length K T S hK
  have hKe : encKey.length = 16 ∨ encKey.length = 32 := by rw [hEncLen]; exact hK
  obtain ⟨nonce, hNonce, hNonceLen⟩ := fullNonce_length K T S hK
  obtain ⟨ct, hctE, hctLen, hctD⟩ := aesctr_roundtrip encKey nonce P hKe hNonceLen
  set hdr : List Nat := [(S >>> 8) % 256, S % 256, 0, 0, 0, 0] with hhdr
  set tag : List Nat := (cmac encKey hdr).take 4 with htagdef
  have htagLen : tag.length = 4 := by
    rw [htagdef, List.length_take, length_cmac]
    rfl
  have hasm : assemblePacket K T S P = hdr ++ tag ++ ct := by
    unfold assemblePacket
    simp only [hEnc, hNonce, Except.toOption, Option.getD_some, hctE,
      computeAuthTag_ok _ _ hKe]
  have hplen : 10 ≤ (hdr ++ tag ++ ct).length := by
    simp only [List.length_append, htagLen, hhdr]
    simp
  have hseq : ((hdr ++ tag ++ ct).getD 0 0 * 256 + (hdr ++ tag ++ ct).getD 1 0) &&& 1023
      = S := by
    rw [hhdr]
    simp only [List.cons_append, List.nil_append, List.getD_cons_zero,
      List.getD_cons_succ]
    rw [and_1023_eq_mod, Nat.shiftRight_eq_div_pow]
    norm_num
    omega
  have hdrop6 : (hdr ++ tag ++ ct).drop 6 = tag ++ ct := by
    rw [hhdr]
    rfl
  have htake4 : (tag ++ ct).take 4 = tag := by
    have h := List.take_left tag ct
    rw [htagLen] at h
    exact h
  have hAuthField : ((hdr ++ tag ++ ct).drop 6).take 4 = tag := by
    rw [hdrop6]
    exact htake4
  have hdrop10 : (hdr ++ tag ++ ct).drop 10 = ct := by
    rw [hhdr]
    show (tag ++ ct).drop 4 = ct
    have h := List.drop_left tag ct
    rw [htagLen] at h
    exact h
  have htake6 : (hdr ++ tag ++ ct).take 6 = hdr := by
    rw [hhdr]
    rfl
  have hp : ParsePacket (hdr ++ tag ++ ct) = .ok ⟨S, tag, ct, hdr ++ tag ++ ct⟩ := by
    rw [parsePacket_ok _ hplen, hseq, hAuthField, hdrop10]
  have hverify : VerifyAuthTag encKey hdr tag = .ok true :=
    (verifyAuthTag_iff encKey hdr tag hKe htagLen).mpr htagdef
  have htm : tagMatchesAt K ⟨S, tag, ct, hdr ++ tag ++ ct⟩ T = true := by
    unfold tagMatchesAt AuthTagOffset
    simp only [hEnc, htake6, hverify]
  refine ⟨⟨S, tag, ct, hdr ++ tag ++ ct⟩, by rw [hasm]; exact hp, htagLen, htm, ?_⟩
  unfold tryDecrypt AuthTagOffset
  simp only [hEnc, htake6, computeAuthTag_ok _ _ hKe, hverify, Bool.not_true,
    Bool.false_eq_true, if_false, hNonce, hctD]

/-- The assembled packet's tag authenticates at its own time counter
(payload-level observable). -/
theorem assembled_tag_matches (K P : List Nat) (T S : Nat)
    (hK : K.length = 16 ∨ K.length = 32) (hS : S ≤ 1023) :
    authTagMatchesAt K (assemblePacket K T S P) T = true := by
  obtain ⟨parsed, hp, _, htm, _⟩ := tryDecrypt_assembled K P T S hK hS
  unfold authTagMatchesAt
  rw [hp]
  exact htm

/-- C7: `FindTimeCounter` is `Decrypt` with the stream-cipher step skipped:
on every input the two agree — `FindTimeCounter` returns exactly the
`TimeCounter` of `Decrypt`'s result, and each error (invalid key, short
packet, search exhaustion `DecryptionFailed`) is returned by one exactly
when it is returned by the other. -/
theorem C7_findTimeCounter_refines_decrypt (key payload : List Nat) (eu W : Nat) :
    FindTimeCounter key payload eu W =
      (Decrypt key payload eu W).map DecryptResult.TimeCounter := by
  unfold FindTimeCounter Decrypt
  by_cases hk : key.length ≠ 16 ∧ key.length ≠ 32
  · rw [if_pos hk, if_pos hk]
    rfl
  · rw [if_neg hk, if_neg hk]
    cases hp : ParsePacket payload with
    | error e => rfl
    | ok parsed =>
      exact findLoop_eq_searchLoop key parsed (by omega)
        (parsePacket_authTag_length payload parsed hp) _

/-- C8: during the search in `Decrypt` (and `FindTimeCounter`), once the
entry key-size check has passed, key derivation succeeds at every candidate
counter, so the only per-candidate failure — the only event that makes the
loop continue — is an authentication-tag mismatch, reported as
`ErrAuthenticationFail`; a matching candidate always yields a success.
(The claim's propagation clause for derivation failures is consequently
vacuous in the search loops: no derivation error can arise there to be
swallowed or propagated.) -/
theorem C8_only_tag_mismatch_continues (key payload : List Nat)
    (parsed : ParsedPacket) (tc : Nat)
    (hK : key.length = 16 ∨ key.length = 32)
    (hp : ParsePacket payload = .ok parsed) :
    (∃ encKey, FullEncryptionKeyDerivation key tc parsed.SequenceNumber = .ok encKey) ∧
    (tagMatchesAt key parsed tc = false →
      tryDecrypt key parsed tc = .error .errAuthenticationFail) ∧
    (tagMatchesAt key parsed tc = true →
      ∃ pl, tryDecrypt key parsed tc = .ok ⟨pl, tc, parsed.SequenceNumber⟩) := by
  have hTag := parsePacket_authTag_length payload parsed hp
  obtain ⟨encKey, hEnc, _⟩ := fullEncKey_length key tc parsed.SequenceNumber hK
  exact ⟨⟨encKey, hEnc⟩, tryDecrypt_of_mismatch key parsed tc hK hTag,
    tryDecrypt_of_match key parsed tc hK hTag⟩

theorem C8_only_tag_mismatch_continues_witness :
    ParsePacket (List.replicate 10 0) =
      .ok ⟨0, [0, 0, 0, 0], [], List.replicate 10 0⟩ ∧
    ((∃ encKey, FullEncryptionKeyDerivation (List.replicate 16 0) 20000
        (ParsedPacket.SequenceNumber ⟨0, [0, 0, 0, 0], [], List.replicate 10 0⟩) =
          .ok encKey) ∧
     (tagMatchesAt (List.replicate 16 0) ⟨0, [0, 0, 0, 0], [], List.replicate 10 0⟩ 20000
        = false →
      tryDecrypt (List.replicate 16 0) ⟨0, [0, 0, 0, 0], [], List.replicate 10 0⟩ 20000
        = .error .errAuthenticationFail) ∧
     (tagMatchesAt (List.replicate 16 0) ⟨0, [0, 0, 0, 0], [], List.replicate 10 0⟩ 20000
        = true →
      ∃ pl, tryDecrypt (List.replicate 16 0) ⟨0, [0, 0, 0, 0], [], List.replicate 10 0⟩
        20000 = .ok ⟨pl, 20000,
          ParsedPacket.SequenceNumber ⟨0, [0, 0, 0, 0], [], List.replicate 10 0⟩⟩)) := by
  refine ⟨rfl, ?_⟩
  exact C8_only_tag_mismatch_continues (List.replicate 16 0) (List.replicate 10 0)
    ⟨0, [0, 0, 0, 0], [], List.replicate 10 0⟩ 20000 (Or.inl (by decide)) rfl

/-- Underflowing window bounds produce an empty candidate list. -/
theorem searchCandidates_underflow (B W : Nat) (hB : B < 4294967296) (hBW : B < W)
    (hW31 : W < 2147483648) :
    searchCandidates (u32sub B (u32 W)) (u32 (B + u32 W)) = [] := by
  unfold searchCandidates u32sub u32
  exact if_neg (by omega)

/-- C10: when the base counter is numerically smaller than the search window,
the `uint32` subtraction `baseCounter - uint32(searchWindowDays)` wraps, the
loop's lower bound exceeds its upper bound, the search executes zero
iterations, and both `Decrypt` and `FindTimeCounter` return
`DecryptionFailed` without trying any candidate (whatever the packet
contents — even the correct counter is never tried). -/
theorem C10_window_underflow (key payload : List Nat) (eu W : Nat)
    (hK : key.length = 16 ∨ key.length = 32) (hlen : 10 ≤ payload.length)
    (hBW : TimeToCounter eu < W) (hW31 : W < 2147483648) :
    Decrypt key payload eu W = .error .errDecryptionFailed ∧
    FindTimeCounter key payload eu W = .error .errDecryptionFailed := by
  have hkey : ¬(key.length ≠ 16 ∧ key.length ≠ 32) := by omega
  have hcand := searchCandidates_underflow (TimeToCounter eu) W (timeToCounter_lt eu)
    hBW hW31
  constructor
  · unfold Decrypt
    rw [if_neg hkey, parsePacket_ok payload hlen]
    simp only [hcand]
    rfl
  · unfold FindTimeCounter
    rw [if_neg hkey, parsePacket_ok payload hlen]
    simp only [hcand]
    rfl

theorem C10_window_underflow_witness :
    (TimeToCounter 86400 < 5 ∧ (5 : Nat) < 2147483648) ∧
    Decrypt (List.replicate 16 0) (List.replicate 10 0) 86400 5 =
      .error .errDecryptionFailed ∧
    FindTimeCounter (List.replicate 16 0) (List.replicate 10 0) 86400 5 =
      .error .errDecryptionFailed := by
  refine ⟨⟨by decide, by decide⟩, ?_⟩
  exact C10_window_underflow (List.replicate 16 0) (List.replicate 10 0) 86400 5
    (Or.inl (by decide)) (by decide) (by decide) (by decide)

/-- C2: with a valid key, a well-formed packet and sane window bounds
(`W ≤ baseCounter`, no `uint32` overflow at `baseCounter + W`, which also
rules out the non-terminating `maxCounter = 2^32 - 1` edge of the Go loop):
(success) whenever the packet authenticates at a counter `T` inside the
inclusive window `[baseCounter - W, baseCounter + W]`, `Decrypt` succeeds,
returning the first authenticating candidate of the ascending scan (which is
`≤ T`, and equals `T` when the tag binds the packet to `T` alone);
(failure) whenever no candidate in the inclusive window authenticates — in
particular when the packet's true counter is `T + W + 1` or further away and
the tag authenticates only there — `Decrypt` fails with `DecryptionFailed`. -/
theorem C2_window_boundary (key payload : List Nat) (eu W : Nat)
    (hK : key.length = 16 ∨ key.length = 32) (hlen : 10 ≤ payload.length)
    (hW : W ≤ TimeToCounter eu) (hmax : TimeToCounter eu + W < 4294967295) :
    (∀ T, TimeToCounter eu - W ≤ T → T ≤ TimeToCounter eu + W →
        authTagMatchesAt key payload T = true →
        ∃ r, Decrypt key payload eu W = .ok r ∧
          TimeToCounter eu - W ≤ r.TimeCounter ∧ r.TimeCounter ≤ T ∧
          authTagMatchesAt key payload r.TimeCounter = true ∧
          ∀ tc, TimeToCounter eu - W ≤ tc → tc < r.TimeCounter →
            authTagMatchesAt key payload tc = false) ∧
    ((∀ tc, TimeToCounter eu - W ≤ tc → tc ≤ TimeToCounter eu + W →
        authTagMatchesAt key payload tc = false) →
      Decrypt key payload eu W = .error .errDecryptionFailed) := by
  have hkey : ¬(key.length ≠ 16 ∧ key.length ≠ 32) := by omega
  obtain ⟨parsed, hp⟩ : ∃ parsed, ParsePacket payload = .ok parsed :=
    ⟨_, parsePacket_ok payload hlen⟩
  have hTag := parsePacket_authTag_length payload parsed hp
  have hDec := decrypt_eq_searchLoop key payload eu W parsed hkey hp hW (by omega)
  have hAuthEq : ∀ tc, authTagMatchesAt key payload tc = tagMatchesAt key parsed tc := by
    intro tc
    unfold authTagMatchesAt
    rw [hp]
  constructor
  · intro T hTlo hThi hT
    rw [hAuthEq] at hT
    obtain ⟨r, hr, hr1, hr2, _, hr4, hr5⟩ := searchLoop_range'_first key parsed hK hTag
      (2 * W + 1) (TimeToCounter eu - W) ⟨T, hTlo, by omega, hT⟩
    refine ⟨r, by rw [hDec]; exact hr, hr1, ?_, by rw [hAuthEq]; exact hr4, ?_⟩
    · by_contra hlt
      push_neg at hlt
      have hf := hr5 T hTlo hlt
      rw [hT] at hf
      exact Bool.noConfusion hf
    · intro tc h1 h2
      rw [hAuthEq]
      exact hr5 tc h1 h2
  · intro hall
    rw [hDec]
    apply searchLoop_range'_none key parsed hK hTag (2 * W + 1) (TimeToCounter eu - W)
    intro tc h1 h2
    rw [← hAuthEq]
    exact hall tc h1 (by omega)

set_option maxRecDepth 2000000 in
theorem C2_window_boundary_witness :
    ((List.replicate 32 1 : List Nat).length = 16 ∨
      (List.replicate 32 1 : List Nat).length = 32) ∧
    10 ≤ (assemblePacket (List.replicate 32 1) 20000 42 [7, 7]).length ∧
    1 ≤ TimeToCounter 1728000000 ∧ TimeToCounter 1728000000 + 1 < 4294967295 ∧
    authTagMatchesAt (List.replicate 32 1)
      (assemblePacket (List.replicate 32 1) 20000 42 [7, 7]) 20000 = true ∧
    (∃ r, Decrypt (List.replicate 32 1)
        (assemblePacket (List.replicate 32 1) 20000 42 [7, 7]) 1728000000 1 = .ok r ∧
      TimeToCounter 1728000000 - 1 ≤ r.TimeCounter ∧ r.TimeCounter ≤ 20000) ∧
    Decrypt (List.replicate 16 0) (List.replicate 10 0) 1728000000 0 =
      .error .errDecryptionFailed := by
  have hK : (List.replicate 32 1 : List Nat).length = 16 ∨
      (List.replicate 32 1 : List Nat).length = 32 := Or.inr (by decide)
  obtain ⟨parsed, hp, _, _, _⟩ :=
    tryDecrypt_assembled (List.replicate 32 1) [7, 7] 20000 42 hK (by decide)
  have hlen : 10 ≤ (assemblePacket (List.replicate 32 1) 20000 42 [7, 7]).length := by
    by_contra hshort
    push_neg at hshort
    rw [parsePacket_short _ hshort] at hp
    exact Except.noConfusion hp
  have hmatch := assembled_tag_matches (List.replicate 32 1) [7, 7] 20000 42 hK (by decide)
  obtain ⟨r, hr, hr1, hr2, _, _⟩ :=
    (C2_window_boundary (List.replicate 32 1)
      (assemblePacket (List.replicate 32 1) 20000 42 [7, 7]) 1728000000 1 hK hlen
      (by decide) (by decide)).1 20000 (by decide) (by decide) hmatch
  have hfail : Decrypt (List.replicate 16 0) (List.replicate 10 0) 1728000000 0 =
      .error .errDecryptionFailed := by
    apply (C2_window_boundary (List.replicate 16 0) (List.replicate 10 0) 1728000000 0
      (Or.inl (by decide)) (by decide) (by decide) (by decide)).2
    intro tc h1 h2
    have hTC : TimeToCounter 1728000000 = 20000 := by decide
    rw [hTC] at h1 h2
    have htc : tc = 20000 := by omega
    subst htc
    decide
  exact ⟨hK, hlen, by decide, by decide, hmatch, ⟨r, hr, hr1, hr2⟩, hfail⟩

/-- C1: the round-trip. For a valid master key `K`, sequence counter
`S ≤ 1023` and time counter `T`: the packet assembled as the 6-byte header
(`S` big-endian in bytes 0–1, bytes 2–5 zero), the 4-byte tag
`ComputeAuthTag(EncryptionKey, header)` and the AES-CTR encryption of `P`
under the two-stage-derived `EncryptionKey`/`Nonce` for `(K, T, S)`, when
decrypted with an `expectedTime` whose counter `B` satisfies
`B - W ≤ T ≤ B + W` (sane window: `W ≤ B`, no `uint32` overflow), yields
exactly `(Payload = P, TimeCounter = T, SeqCounter = S)` — provided the
truncated tag does not also authenticate at an earlier candidate of the
window (cryptographic binding; the ascending scan would otherwise stop
there first). -/
theorem C1_roundtrip (K P : List Nat) (T S W eu : Nat)
    (hK : K.length = 16 ∨ K.length = 32) (hS : S ≤ 1023)
    (hW : W ≤ TimeToCounter eu) (hmax : TimeToCounter eu + W < 4294967295)
    (hTlo : TimeToCounter eu - W ≤ T) (hThi : T ≤ TimeToCounter eu + W)
    (hfirst : ∀ tc, TimeToCounter eu - W ≤ tc → tc < T →
        authTagMatchesAt K (assemblePacket K T S P) tc = false) :
    Decrypt K (assemblePacket K T S P) eu W = .ok ⟨P, T, S⟩ := by
  obtain ⟨parsed, hp, hTag, htm, htd⟩ := tryDecrypt_assembled K P T S hK hS
  have hkey : ¬(K.length ≠ 16 ∧ K.length ≠ 32) := by omega
  rw [decrypt_eq_searchLoop K _ eu W parsed hkey hp hW (by omega)]
  have hfirst2 : ∀ tc, TimeToCounter eu - W ≤ tc →
      tc < (TimeToCounter eu - W) + (T - (TimeToCounter eu - W)) →
      tagMatchesAt K parsed tc = false := by
    intro tc h1 h2
    have h := hfirst tc h1 (by omega)
    unfold authTagMatchesAt at h
    rw [hp] at h
    exact h
  rw [show 2 * W + 1 = (T - (TimeToCounter eu - W)) +
    (2 * W + 1 - (T - (TimeToCounter eu - W))) by omega]
  rw [searchLoop_range'_skip K parsed hK hTag (T - (TimeToCounter eu - W))
    (TimeToCounter eu - W) _ hfirst2]
  rw [show (TimeToCounter eu - W) + (T - (TimeToCounter eu - W)) = T by omega]
  rw [show 2 * W + 1 - (T - (TimeToCounter eu - W)) =
    (2 * W + 1 - (T - (TimeToCounter eu - W)) - 1) + 1 by omega]
  show searchLoop K parsed (T :: _) = _
  rw [searchLoop, htd]

theorem C1_roundtrip_witness :
    ((List.range 32).length = 16 ∨ (List.range 32).length = 32) ∧
    (42 : Nat) ≤ 1023 ∧ TimeToCounter 1728000000 = 20000 ∧
    Decrypt (List.range 32)
        (assemblePacket (List.range 32) 20000 42 (ascii "Hello, Hubble!"))
        1728000000 0 =
      .ok ⟨ascii "Hello, Hubble!", 20000, 42⟩ := by
  refine ⟨Or.inr (by decide), by decide, by decide, ?_⟩
  exact C1_roundtrip (List.range 32) (ascii "Hello, Hubble!") 20000 42 0 1728000000
    (Or.inr (by decide)) (by decide) (by decide) (by decide) (by decide) (by decide)
    (by
      intro tc h1 h2
      have hTC : TimeToCounter 1728000000 - 0 = 20000 := by decide
      rw [hTC] at h1
      omega)

end Hubcli
